import Mathlib

/-!
# Verification of the `eventstream` reactive-stream core

Shallow embedding of `src/eventstream.js`.  The library threads each value
synchronously through a chain of combinator transforms ("schedulers"),
ending at the terminal handler built by `subscribe`.  We embed:

* the value universe (`JSVal`), with the module-private `EXHAUST_SIGNAL`
  object as the constructor `JSVal.sig` (reference identity becomes
  constructor equality);
* user-supplied functions as `JSVal → Except JSVal JSVal` — a thrown JS
  exception is `Except.error`;
* `safeCall` (lines 299–305) as a case split on the `Except` result; the
  continuations `done`/`fail` are total in this model, which matches the
  library, where every downstream handler catches its own exceptions;
* each linear combinator transform (map / filter / scan / diff / take)
  as a stateful transducer `Stage`, and the composed scheduler chain
  (`transformScheduler` / `composeScheduler`, lines 228–242) as the list
  of stages traversed in construction order by `runPipe`.  A stage calls
  `next` (possibly several times, e.g. `take`) and `nextError`; because
  `composeScheduler` passes `nextError` through unchanged, an error
  emitted by any stage reaches the terminal handler directly, which the
  runner models by letting `Out.err` slide past the remaining stages;
* the terminal handler of `subscribe` (lines 172–201), including the
  `canUnsubscribe` guard and the fact that `subscribe` returns the raw
  `unsubscribe` produced by the subscriptor, as the machine `subStep`.
-/

namespace Eventstream

/-- The universe of values travelling through a pipeline.  `sig` is the
module-private `EXHAUST_SIGNAL` object (line 1); plain data is enough as
integers and booleans for every behaviour the combinators exhibit. -/
inductive JSVal where
  | int (n : Int)
  | bool (b : Bool)
  | sig
deriving DecidableEq, Repr

/-- JS truthiness, used by `filter`'s `if (isAccepted)`. -/
def truthy : JSVal → Bool
  | .int n => n != 0
  | .bool b => b
  | .sig => true

/-- A user-supplied unary function; `Except.error` models a thrown
exception. -/
abbrev JSFun := JSVal → Except JSVal JSVal

/-- A user-supplied binary function (scan/diff accumulators,
combineLatest combinators). -/
abbrev JSFun2 := JSVal → JSVal → Except JSVal JSVal

/-- A total unary function lifted to the throwing kind. -/
def totalF (g : JSVal → JSVal) : JSFun := fun v => .ok (g v)

/-- A total binary function lifted to the throwing kind. -/
def totalF2 (g : JSVal → JSVal → JSVal) : JSFun2 := fun a b => .ok (g a b)

/-- What a pipeline stage hands to the next stage: a call of `next`
(`Out.next`) or of `nextError` (`Out.err`). -/
inductive Out where
  | next (v : JSVal)
  | err (e : JSVal)
deriving DecidableEq, Repr

/-- `safeCall(done, fail, fn)` (lines 299–305): evaluate the supplied
computation; feed the result to `done`, a thrown exception to `fail`.
The continuations are total here, as they are in the library, where every
handler below a `safeCall` catches its own exceptions. -/
def safeCall {α : Type} (done : JSVal → α) (fail : JSVal → α) :
    Except JSVal JSVal → α
  | .ok v => done v
  | .error e => fail e

/-- One linear combinator stage together with its private closure state:
`scan`'s and `diff`'s `var s`, `take`'s captured `count`. -/
inductive Stage where
  | map (fn : JSFun)
  | filter (predicate : JSFun)
  | scan (fn : JSFun2) (s : JSVal)
  | diff (fn : JSFun2) (s : JSVal)
  | take (count : Int)

/-- One stage processing one incoming value: the body of the transform
each combinator passes to `transformScheduler`.

* `map` (lines 18–22): `safeCall(next, nextError, partial(fn, value))`.
* `filter` (lines 24–36): `next(value)` only when the predicate's result
  is truthy.
* `scan` (lines 38–51): on success commit `s = result` and forward the
  result; a throw reaches `nextError` before the commit runs.
* `diff` (lines 53–66): on success commit `s = value` (the raw input)
  and forward the result; a throw reaches `nextError` before the commit.
* `take` (lines 84–94): `if (--count >= 0) { next(value); if (count === 0)
  next(EXHAUST_SIGNAL); }`. -/
def runStage : Stage → JSVal → Stage × List Out
  | .map fn, value =>
      (.map fn,
        safeCall (fun result => [.next result]) (fun e => [.err e]) (fn value))
  | .filter predicate, value =>
      (.filter predicate,
        safeCall (fun isAccepted => if truthy isAccepted then [.next value] else [])
          (fun e => [.err e]) (predicate value))
  | .scan fn s, value =>
      safeCall (fun result => (.scan fn result, [.next result]))
        (fun e => (.scan fn s, [.err e])) (fn s value)
  | .diff fn s, value =>
      safeCall (fun result => (.diff fn value, [.next result]))
        (fun e => (.diff fn s, [.err e])) (fn s value)
  | .take count, value =>
      (.take (count - 1),
        if count - 1 ≥ 0 then
          .next value :: (if count - 1 = 0 then [.next .sig] else [])
        else [])

/-- Feed a sequence of pending calls into one stage, in emission order:
`next` values run through the stage, `nextError` calls slide past it
(`composeScheduler` hands every transform the terminal `nextError`
unchanged, lines 235–242). -/
def stepMany (st : Stage) : List Out → Stage × List Out
  | [] => (st, [])
  | .next v :: outs =>
      let p := runStage st v
      let q := stepMany p.1 outs
      (q.1, p.2 ++ q.2)
  | .err e :: outs =>
      let q := stepMany st outs
      (q.1, .err e :: q.2)

/-- Run pending calls through a whole chain of stages, listed in
construction order (the order values traverse them, per the composition
`s2(next, ne) = s1(t2(next, ne), ne)` of `composeScheduler`).  Stages are
deterministic transducers fed in emission order, so this staged traversal
produces the same terminal call sequence as the source's depth-first
nested calls. -/
def runPipe : List Stage → List Out → List Stage × List Out
  | [], outs => ([], outs)
  | st :: rest, outs =>
      let p := stepMany st outs
      let q := runPipe rest p.2
      (p.1 :: q.1, q.2)

/-- One producer tick entering the pipeline. -/
def runTick (p : List Stage) (v : JSVal) : List Stage × List Out :=
  runPipe p [.next v]

/-- A whole sequence of producer ticks; returns the final stage states and
the concatenated sequence of calls reaching the terminal handler. -/
def runTicks (p : List Stage) : List JSVal → List Stage × List Out
  | [] => (p, [])
  | v :: vs =>
      let q := runTick p v
      let r := runTicks q.1 vs
      (r.1, q.2 ++ r.2)

/-- Consumer-visible callbacks fired by the terminal handler. -/
inductive TEvt where
  | onNext (v : JSVal)
  | onEnd
  | onError (e : JSVal)
deriving DecidableEq, Repr

/-- The state of one active subscription: the `canUnsubscribe` guard of
`subscribe` (line 173), the number of times the producer's underlying
stop function has run, and the consumer callbacks fired so far. -/
structure SubSt where
  canUnsubscribe : Bool
  producerStops : Nat
  consumed : List TEvt
deriving DecidableEq, Repr

/-- A fresh subscription (with `onEnd` and `onError` both provided). -/
def SubSt.init : SubSt := ⟨true, 0, []⟩

/-- What can happen to an active subscription: the pipeline delivers a
call to the terminal handler, or the caller invokes the value `subscribe`
returned. -/
inductive SubAct where
  | deliver (o : Out)
  | callStop

/-- The terminal handler of `subscribe` (lines 172–201).  A delivered
value identical to `EXHAUST_SIGNAL` runs the guarded teardown —
`canUnsubscribe` flips and `unsubscribe()` (the producer's stop) runs
once — then `onEnd`; any other value goes to `onNext`; errors go to
`onError`.  `subscribe` returns `unsubscribe` itself (line 200), the raw
stop produced by the subscriptor, so `callStop` runs the producer's stop
unconditionally, with no guard in its path. -/
def subStep (s : SubSt) : SubAct → SubSt
  | .deliver (.next v) =>
      if v = .sig then
        let s1 := if s.canUnsubscribe then
            { s with canUnsubscribe := false, producerStops := s.producerStops + 1 }
          else s
        { s1 with consumed := s1.consumed ++ [.onEnd] }
      else { s with consumed := s.consumed ++ [.onNext v] }
  | .deliver (.err e) => { s with consumed := s.consumed ++ [.onError e] }
  | .callStop => { s with producerStops := s.producerStops + 1 }

/-- A subscription run over a sequence of deliveries and external stop
calls. -/
def subRun (acts : List SubAct) : SubSt := acts.foldl subStep .init

/-! ## Reference (spec-side) descriptions of the stateful linear stages -/

/-- Follows the spec's words for `scan`: on a successful tick the
accumulator advances to the computed result, which is forwarded; on a
failing tick the accumulator is left unmodified and only an error event
is emitted; processing continues with later ticks. -/
def scanSpec (f : JSFun2) (s : JSVal) : List JSVal → JSVal × List Out
  | [] => (s, [])
  | v :: vs =>
    match f s v with
    | .ok r => let q := scanSpec f r vs; (q.1, .next r :: q.2)
    | .error e => let q := scanSpec f s vs; (q.1, .err e :: q.2)

/-- The amended description of `diff`: on a successful tick the stored
previous value advances to the raw incoming value (committed before the
result is forwarded); on a failing tick it is left unchanged, so the next
application compares against the most recent value for which `fn`
succeeded. -/
def diffSpec (f : JSFun2) (s : JSVal) : List JSVal → JSVal × List Out
  | [] => (s, [])
  | v :: vs =>
    match f s v with
    | .ok r => let q := diffSpec f v vs; (q.1, .next r :: q.2)
    | .error e => let q := diffSpec f s vs; (q.1, .err e :: q.2)

/-! ## Concrete user functions used in the examples -/

/-- Integer addition, total: the accumulator of `scan(0, (a,b)=>a+b)`. -/
def addF : JSFun2 := totalF2 fun a b =>
  match a, b with
  | .int x, .int y => .int (x + y)
  | _, _ => .sig

/-- `(a,b) => b - a`, the comparator of the spec's diff example. -/
def subF0 : JSFun2 := fun a b =>
  match a, b with
  | .int x, .int y => .ok (.int (y - x))
  | _, _ => .error (.int 0)

/-- `(a,b) => b - a`, except it throws `99` when the incoming value is
`5` — the comparator of the diff counterexample. -/
def cexF : JSFun2 := fun a b =>
  if b = .int 5 then .error (.int 99) else subF0 a b

/-! ## Behaviour of the stateful linear stages, stage by stage -/

/-- A single `scan` stage run over a tick sequence realises `scanSpec`:
the closure variable tracks the spec accumulator and the emitted calls
are the spec trace. -/
theorem scan_runTicks (f : JSFun2) (s : JSVal) (vs : List JSVal) :
    runTicks [Stage.scan f s] vs =
      ([Stage.scan f (scanSpec f s vs).1], (scanSpec f s vs).2) := by
  induction vs generalizing s with
  | nil => rfl
  | cons v vs ih =>
    cases h : f s v with
    | ok r => simp [runTicks, runTick, runPipe, stepMany, runStage, safeCall, h,
        scanSpec, ih r]
    | error e => simp [runTicks, runTick, runPipe, stepMany, runStage, safeCall, h,
        scanSpec, ih s]

/-- A single `diff` stage run over a tick sequence realises `diffSpec`:
the stored previous value advances exactly on successful ticks. -/
theorem diff_runTicks (f : JSFun2) (s : JSVal) (vs : List JSVal) :
    runTicks [Stage.diff f s] vs =
      ([Stage.diff f (diffSpec f s vs).1], (diffSpec f s vs).2) := by
  induction vs generalizing s with
  | nil => rfl
  | cons v vs ih =>
    cases h : f s v with
    | ok r => simp [runTicks, runTick, runPipe, stepMany, runStage, safeCall, h,
        diffSpec, ih v]
    | error e => simp [runTicks, runTick, runPipe, stepMany, runStage, safeCall, h,
        diffSpec, ih s]

/-- A `take` stage whose captured count is already `≤ 0` swallows every
tick: no value and, in particular, no `EXHAUST_SIGNAL` is ever emitted;
the count keeps decrementing. -/
theorem take_nonpos_runTicks (k : Nat) (vs : List JSVal) :
    runTicks [Stage.take (-(k : Int))] vs =
      ([Stage.take (-(k : Int) - vs.length)], []) := by
  induction vs generalizing k with
  | nil => simp [runTicks]
  | cons v vs ih =>
    have h1 : ¬ (-(k : Int) - 1 ≥ 0) := by omega
    have e1 : -(k : Int) - 1 = -((k + 1 : Nat) : Int) := by push_cast; ring
    have e2 : -((k + 1 : Nat) : Int) - vs.length
        = -(k : Int) - (vs.length + 1 : Nat) := by push_cast; ring
    simp only [runTicks, runTick, runPipe, stepMany, runStage, if_neg h1]
    rw [e1, ih (k + 1)]
    simp
    omega

/-! ## Claim theorems over the linear pipeline and the subscription -/

/-- C1: the value returned by `subscribe` is the raw stop produced by the
subscriptor, so calling it twice runs the producer's underlying stop
twice, and calling it after the stream self-terminated through the
sentinel runs it a second time as well; the `canUnsubscribe` guard
protects only the sentinel path, where a second sentinel delivery does
not stop the producer again.  This refutes the claim that the returned
function invokes the producer's stop at most once in total. -/
theorem c1_rawStop_eval :
    (subRun [.callStop, .callStop]).producerStops = 2 ∧
    (subRun [.deliver (.next .sig), .callStop]).producerStops = 2 ∧
    (subRun [.deliver (.next .sig), .deliver (.next .sig)]).producerStops = 1 := by
  decide

/-- C2: a `take` stage constructed with a count `≤ 0` forwards no value,
but it also never emits the termination sentinel: over any tick sequence
the terminal handler receives nothing at all, so teardown never runs,
`onEnd` is never called, and the subscription never terminates — the
count just keeps decrementing.  This contradicts the claimed immediate
exhaustion. -/
theorem c2_take_nonpos_never_terminates (k : Nat) (vs : List JSVal) :
    runTicks [Stage.take (-(k : Int))] vs
      = ([Stage.take (-(k : Int) - vs.length)], []) ∧
    subRun (((runTicks [Stage.take (-(k : Int))] vs).2).map SubAct.deliver)
      = SubSt.init := by
  refine ⟨take_nonpos_runTicks k vs, ?_⟩
  rw [take_nonpos_runTicks k vs]
  rfl

/-- C3 counterexample: `diff(0, f)` where `f (a, b) = b - a` throws `99`
on the value `5`, over the ticks `[2, 5, 9]`.  The code leaves the
stored previous value at `2` when `f` throws (the commit `s = value`
sits in `safeCall`'s success continuation), so the third tick computes
`9 - 2 = 7`; the claim's always-commit reading would compare against the
raw `5` and yield `9 - 5 = 4`. -/
theorem c3_diff_counterexample :
    (runTicks [Stage.diff cexF (.int 0)] [.int 2, .int 5]).1
      = [Stage.diff cexF (.int 2)] ∧
    (runTicks [Stage.diff cexF (.int 0)] [.int 2, .int 5, .int 9]).2
      = [Out.next (.int 2), Out.err (.int 99), Out.next (.int 7)] ∧
    (runTicks [Stage.diff cexF (.int 0)] [.int 2, .int 5, .int 9]).2
      ≠ [Out.next (.int 2), Out.err (.int 99), Out.next (.int 4)] := by
  refine ⟨rfl, by decide, by decide⟩

/-- C3 amended: `diff(seed, f)` keeps `previous` in the closure variable
`s`; on a successful tick it commits `previous = value` (the raw
incoming value) before calling `next(f(previous, value))`, but on a
failing tick the commit never runs, so the next application compares
against the most recent value for which `f` succeeded — realised by
`diffSpec`.  On the spec's own example, `diff(0, (a,b)=>b-a)` over
`[2, 5, 9]` yields `[2, 3, 4]`. -/
theorem c3_diff_amended (f : JSFun2) (s : JSVal) (vs : List JSVal) :
    runTicks [Stage.diff f s] vs
      = ([Stage.diff f (diffSpec f s vs).1], (diffSpec f s vs).2) ∧
    (runTicks [Stage.diff subF0 (.int 0)] [.int 2, .int 5, .int 9]).2
      = [Out.next (.int 2), Out.next (.int 3), Out.next (.int 4)] := by
  exact ⟨diff_runTicks f s vs, by decide⟩

/-- C7: `scan(seed, f)` advances its accumulator to `f(acc, value)` and
forwards that result exactly on the successful ticks; on a failing tick
the accumulator is left unmodified and no value is forwarded, only the
error — the stage realises `scanSpec` in both state and trace.  On the
spec's example, `scan(0, (a,b)=>a+b)` over `[1, 1, 1]` yields
`[1, 2, 3]`. -/
theorem c7_scan (f : JSFun2) (s : JSVal) (vs : List JSVal) :
    runTicks [Stage.scan f s] vs
      = ([Stage.scan f (scanSpec f s vs).1], (scanSpec f s vs).2) ∧
    (runTicks [Stage.scan addF (.int 0)] [.int 1, .int 1, .int 1]).2
      = [Out.next (.int 1), Out.next (.int 2), Out.next (.int 3)] := by
  exact ⟨scan_runTicks f s vs, by decide⟩

/-- C10: no combinator stage compares against the sentinel — with `map`
downstream of `take(1)`, the transform is applied to the sentinel object
itself, so the terminal handler receives `g v` and then `g sig`; the
producer is stopped exactly when one of the values reaching the terminal
handler is still (identically) the sentinel, and not otherwise. -/
theorem c10_sentinel_through_map (g : JSVal → JSVal) (v : JSVal) :
    (runTicks [Stage.take 1, Stage.map (totalF g)] [v]).2
      = [Out.next (g v), Out.next (g .sig)] ∧
    (subRun (((runTicks [Stage.take 1, Stage.map (totalF g)] [v]).2).map
        SubAct.deliver)).producerStops
      = (if g v = .sig ∨ g .sig = .sig then 1 else 0) := by
  have houts : (runTicks [Stage.take 1, Stage.map (totalF g)] [v]).2
      = [Out.next (g v), Out.next (g .sig)] := by
    simp [runTicks, runTick, runPipe, stepMany, runStage, safeCall, totalF]
  refine ⟨houts, ?_⟩
  rw [houts]
  by_cases h1 : g v = .sig <;> by_cases h2 : g .sig = .sig <;>
    simp [subRun, subStep, h1, h2, SubSt.init]

/-! ## The `combineLatest` join (lines 104–124)

The joined scheduler of `combineWithEventStream` tags each tick with its
origin (`true` for the stream itself, key `'a'`; `false` for the other
stream, key `'b'`) and dispatches it into the shared `transform`.  The
closure object `values` becomes a pair of `Option JSVal` (a missing key
is `none`); the transform first stores the incoming value under its
origin's key and then, only if both keys are present, runs the
combinator under `safeCall`. -/

/-- A `combineLatest` subscription over a sequence of origin-tagged
ticks: returns the final `values` object and the calls handed to the
downstream `next` / `nextError`. -/
def runCL (f : JSFun2) :
    Option JSVal × Option JSVal → List (Bool × JSVal) →
      (Option JSVal × Option JSVal) × List Out
  | vals, [] => (vals, [])
  | vals, (o, v) :: tws =>
    let vals1 := if o then (some v, vals.2) else (vals.1, some v)
    let emit := match vals1.1, vals1.2 with
      | some a, some b => safeCall (fun r => [Out.next r]) (fun e => [Out.err e]) (f a b)
      | _, _ => []
    let q := runCL f vals1 tws
    (q.1, emit ++ q.2)

/-- The latest value an origin has produced in a tagged tick sequence,
if any. -/
def lastFrom (o : Bool) (tws : List (Bool × JSVal)) : Option JSVal :=
  ((tws.filter fun tw => tw.1 == o).getLast?).map Prod.snd

theorem lastFrom_concat (o p : Bool) (v : JSVal) (tws : List (Bool × JSVal)) :
    lastFrom o (tws ++ [(p, v)])
      = if p == o then some v else lastFrom o tws := by
  by_cases h : p = o <;> simp [lastFrom, List.filter_append, h]

theorem runCL_append (f : JSFun2) (vals : Option JSVal × Option JSVal)
    (tws tws' : List (Bool × JSVal)) :
    runCL f vals (tws ++ tws')
      = ((runCL f (runCL f vals tws).1 tws').1,
         (runCL f vals tws).2 ++ (runCL f (runCL f vals tws).1 tws').2) := by
  induction tws generalizing vals with
  | nil => simp [runCL]
  | cons tw tws ih =>
    obtain ⟨o, v⟩ := tw
    simp [runCL, ih]

/-- The `values` object always holds each origin's latest value: after
any tagged tick sequence from a fresh subscription, it is exactly
`(lastFrom true, lastFrom false)`. -/
theorem runCL_fst (f : JSFun2) (tws : List (Bool × JSVal)) :
    (runCL f (none, none) tws).1 = (lastFrom true tws, lastFrom false tws) := by
  induction tws using List.reverseRecOn with
  | nil => rfl
  | append_singleton tws tw ih =>
    obtain ⟨o, v⟩ := tw
    rw [runCL_append, ih]
    cases o <;> simp [runCL, lastFrom_concat]

/-- A tick sequence coming entirely from one origin leaves the other key
absent, so the combinator never runs and nothing is emitted. -/
theorem runCL_one_origin (f : JSFun2) (o : Bool) (vs : List JSVal)
    (a : Option JSVal) :
    (runCL f (if o then (a, none) else (none, a)) (vs.map fun w => (o, w))).2
      = [] := by
  induction vs generalizing a with
  | nil => cases o <;> rfl
  | cons v vs ih =>
    cases o <;> simpa [runCL] using ih (some v)

/-- C8: `combineLatest` keeps the latest value of each origin — after
any tick sequence the stored pair is `(lastFrom true, lastFrom false)`;
a tick first stores its value and then, exactly when both origins have
by now produced at least one value, emits the combinator applied to the
updated pair (its own value included); and while every tick still comes
from a single origin nothing at all is emitted. -/
theorem c8_combineLatest (g : JSVal → JSVal → JSVal)
    (tws : List (Bool × JSVal)) (o : Bool) (v : JSVal) (vsA vsB : List JSVal) :
    (runCL (totalF2 g) (none, none) tws).1
      = (lastFrom true tws, lastFrom false tws) ∧
    (runCL (totalF2 g) (none, none) (tws ++ [(o, v)])).2
      = (runCL (totalF2 g) (none, none) tws).2 ++
          (match lastFrom true (tws ++ [(o, v)]), lastFrom false (tws ++ [(o, v)]) with
           | some a, some b => [Out.next (g a b)]
           | _, _ => []) ∧
    (runCL (totalF2 g) (none, none) (vsA.map fun w => (true, w))).2 = [] ∧
    (runCL (totalF2 g) (none, none) (vsB.map fun w => (false, w))).2 = [] := by
  refine ⟨runCL_fst _ tws, ?_, ?_, ?_⟩
  · rw [runCL_append, runCL_fst]
    cases o with
    | false =>
      simp only [runCL, lastFrom_concat]
      cases h : lastFrom true tws <;> simp [totalF2, safeCall, runCL]
    | true =>
      simp only [runCL, lastFrom_concat]
      cases h : lastFrom false tws <;> simp [totalF2, safeCall, runCL]
  · simpa using runCL_one_origin (totalF2 g) true vsA none
  · simpa using runCL_one_origin (totalF2 g) false vsB none

/-! ## Error isolation of the transform stages -/

/-- A `map` stage with a downstream `map` stage: each tick contributes
the transformed value on success, and on a throw exactly one error call
— the downstream transform is not applied on that tick, and later ticks
are unaffected. -/
theorem map_down_runTicks (f : JSFun) (g : JSVal → JSVal) (vs : List JSVal) :
    (runTicks [Stage.map f, Stage.map (totalF g)] vs).2
      = vs.flatMap fun v =>
          match f v with
          | .ok r => [Out.next (g r)]
          | .error e => [Out.err e] := by
  induction vs with
  | nil => rfl
  | cons v vs ih =>
    cases h : f v <;>
      simp [runTicks, runTick, runPipe, stepMany, runStage, safeCall, totalF, h, ih]

/-- A `filter` stage with a downstream `map` stage: a tick passes the
(untransformed) value on a truthy predicate result, is dropped on a
falsy one, and contributes exactly one error call when the predicate
throws — again without invoking the downstream transform on that
tick. -/
theorem filter_down_runTicks (p : JSFun) (g : JSVal → JSVal) (vs : List JSVal) :
    (runTicks [Stage.filter p, Stage.map (totalF g)] vs).2
      = vs.flatMap fun v =>
          match p v with
          | .ok t => if truthy t then [Out.next (g v)] else []
          | .error e => [Out.err e] := by
  induction vs with
  | nil => rfl
  | cons v vs ih =>
    cases h : p v with
    | ok t =>
      cases ht : truthy t <;>
        simp [runTicks, runTick, runPipe, stepMany, runStage, safeCall, totalF,
          h, ht, ih]
    | error e =>
      simp [runTicks, runTick, runPipe, stepMany, runStage, safeCall, totalF, h, ih]

/-- One tagged tick through `combineLatest`'s transform, in isolation. -/
theorem runCL_single (f : JSFun2) (vals : Option JSVal × Option JSVal)
    (o : Bool) (v : JSVal) :
    runCL f vals [(o, v)]
      = (if o then (some v, vals.2) else (vals.1, some v),
         match (if o then (some v, vals.2) else (vals.1, some v)).1,
               (if o then (some v, vals.2) else (vals.1, some v)).2 with
         | some a, some b =>
            safeCall (fun r => [Out.next r]) (fun e => [Out.err e]) (f a b)
         | _, _ => []) := by
  cases o <;> simp [runCL]

/-- C6: every user-supplied transform runs under `safeCall`, so a throw
on a tick reaches the error channel exactly once with the thrown error,
produces no value on that tick, never reaches a downstream stage or the
consumer's `onNext`, does not terminate the stream, and later ticks are
processed unchanged.  Spelled out per stage: `map` and `filter` each
with a downstream `map` stage realise per-tick success/error traces;
`scan` realises `scanSpec`, which emits exactly one error call on a
failing tick and continues; and a `combineLatest` tick first commits the
incoming value into the `values` pair whether or not the combinator then
throws, emitting either the combined value or exactly one error call. -/
theorem c6_error_isolation (f p : JSFun) (g : JSVal → JSVal) (f2 fc : JSFun2)
    (s : JSVal) (vs : List JSVal) (tws : List (Bool × JSVal)) (o : Bool)
    (w : JSVal) :
    (runTicks [Stage.map f, Stage.map (totalF g)] vs).2
      = (vs.flatMap fun v =>
          match f v with
          | .ok r => [Out.next (g r)]
          | .error e => [Out.err e]) ∧
    (runTicks [Stage.filter p, Stage.map (totalF g)] vs).2
      = (vs.flatMap fun v =>
          match p v with
          | .ok t => if truthy t then [Out.next (g v)] else []
          | .error e => [Out.err e]) ∧
    (runTicks [Stage.scan f2 s] vs).2 = (scanSpec f2 s vs).2 ∧
    (runCL fc (none, none) (tws ++ [(o, w)])).1
      = (if o then (some w, (runCL fc (none, none) tws).1.2)
         else ((runCL fc (none, none) tws).1.1, some w)) ∧
    (runCL fc (none, none) (tws ++ [(o, w)])).2
      = (runCL fc (none, none) tws).2 ++
          (match (if o then (some w, (runCL fc (none, none) tws).1.2)
                  else ((runCL fc (none, none) tws).1.1, some w)).1,
                 (if o then (some w, (runCL fc (none, none) tws).1.2)
                  else ((runCL fc (none, none) tws).1.1, some w)).2 with
           | some a, some b =>
              match fc a b with
              | .ok r => [Out.next r]
              | .error e => [Out.err e]
           | _, _ => []) := by
  refine ⟨map_down_runTicks f g vs, filter_down_runTicks p g vs,
    by rw [scan_runTicks], ?_, ?_⟩
  · rw [runCL_append, runCL_single]
  · rw [runCL_append, runCL_single]
    cases o with
    | false =>
      cases h1 : (runCL fc (none, none) tws).1.1 with
      | none => simp [h1]
      | some a => cases h2 : fc a w <;> simp [h1, h2, safeCall]
    | true =>
      cases h2 : (runCL fc (none, none) tws).1.2 with
      | none => simp [h2]
      | some b => cases h1 : fc w b <;> simp [h1, h2, safeCall]

/-! ## The `delay` combinator (lines 68–82)

`delay(timeout)` keeps one closure variable `timer` holding the handle
of the most recently scheduled timeout; its transform runs
`timer = setTimeout(partial(next, value), timeout)` on each incoming
value, and its subscriptor is the upstream's joined with a constant stop
that runs `clearTimeout(timer)`.  We model the host timer table as a
list of (handle, payload) pairs with sequential handles; `clearTimeout`
on an already-fired or absent handle is a no-op, exactly as in JS.  A
`fire` action is the host event loop firing a still-pending timer, which
delivers the payload to the downstream `next` — after unsubscription
that is a delivery the consumer still sees. -/

/-- The live state of one `delay` subscription. -/
structure DelaySt where
  timer : Option Nat
  nextId : Nat
  pending : List (Nat × JSVal)
  upstreamStops : Nat
  delivered : List JSVal
deriving DecidableEq, Repr

/-- A fresh `delay` subscription: no timer scheduled yet. -/
def DelaySt.init : DelaySt := ⟨none, 0, [], 0, []⟩

/-- What can happen to a `delay` subscription: its transform receives an
upstream value, the caller invokes the stop returned by `subscribe`, or
the host fires a timer. -/
inductive DelayAct where
  | tick (v : JSVal)
  | stop
  | fire (id : Nat)

/-- `clearTimeout` over the pending-timer table. -/
def clearTimeout (pending : List (Nat × JSVal)) : Option Nat → List (Nat × JSVal)
  | none => pending
  | some id => pending.filter fun t => t.1 != id

/-- One step of a `delay` subscription.

* `tick`: the transform schedules a fresh one-shot timer carrying the
  value and overwrites the single closure variable `timer` with its
  handle — the previous handle is forgotten, not cancelled.
* `stop`: the joined teardown of
  `joinSubscriptors(constant(clearTimeout(timer)), subscriptor)` — it
  clears whichever handle `timer` currently holds, then stops the
  upstream producer.
* `fire`: a still-pending timer elapses and its payload reaches the
  downstream consumer. -/
def delayStep (s : DelaySt) : DelayAct → DelaySt
  | .tick v =>
      { s with pending := s.pending ++ [(s.nextId, v)],
               timer := some s.nextId,
               nextId := s.nextId + 1 }
  | .stop =>
      { s with pending := clearTimeout s.pending s.timer,
               upstreamStops := s.upstreamStops + 1 }
  | .fire id =>
      match s.pending.find? (fun t => t.1 == id) with
      | some t => { s with pending := s.pending.filter fun u => u.1 != id,
                           delivered := s.delivered ++ [t.2] }
      | none => s

/-- A `delay` subscription run from fresh over a sequence of actions. -/
def delayRun (acts : List DelayAct) : DelaySt := acts.foldl delayStep .init

/-- C5 counterexample: two upstream values arrive within the timeout of
one another, so two timers are in flight; the stop returned by
`subscribe` clears only the handle held by the single `timer` variable —
the second one — and when the host then fires the first timer its value
is still delivered to the consumer after unsubscription. -/
theorem c5_delay_counterexample :
    (delayRun [.tick (.int 1), .tick (.int 2), .stop]).pending
      = [(0, .int 1)] ∧
    (delayRun [.tick (.int 1), .tick (.int 2), .stop, .fire 0]).delivered
      = [.int 1] ∧
    (delayRun [.tick (.int 1), .tick (.int 2), .stop, .fire 0]).delivered
      ≠ [] := by
  decide

/-- C5 amended: with several timers in flight, the stop returned by
`subscribe` synchronously stops the upstream producer exactly once and
clears exactly one pending timer — the most recently scheduled one;
every earlier in-flight timer stays pending, and when it fires its value
is still delivered to the consumer. -/
theorem c5_delay_amended (v1 v2 : JSVal) :
    delayRun [.tick v1, .tick v2, .stop]
      = ⟨some 1, 2, [(0, v1)], 1, []⟩ ∧
    (delayRun [.tick v1, .tick v2, .stop, .fire 0]).delivered = [v1] ∧
    (delayRun [.tick v1, .tick v2, .stop, .fire 0]).pending = [] := by
  refine ⟨rfl, rfl, rfl⟩

/-! ## The dynamic combinator `flatMapCapped` (lines 150–170)

`flatMapCapped(limit, fn)` keeps an array `substreams` of the values
returned by `fn(value).subscribe(next, null, nextError)` — each is the
raw stop of that child's producer, since `subscribe` returns the
subscriptor's own unsubscribe.  On a parent value with the array at the
cap, the oldest entry is shifted off and invoked; the new child's stop
is pushed.  The joined teardown runs `invokeEach(substreams)` (calling
every stored raw stop, whatever its history) and then stops the parent's
own producer.  A child delivering a value runs the child-subscription
terminal handler of `subscribe` with `onNext = next`, `onEnd = null`,
`onError = nextError`: the sentinel flips that child's own
`canUnsubscribe` guard and stops the child's producer once, forwarding
nothing to the parent; other values and errors are forwarded.  Children
are numbered by creation order; `guards.getD id` / `stops.getD id` are
child `id`'s guard and its producer-stop count. -/

/-- The live state of one `flatMapCapped` subscription. -/
structure FMState where
  arr : List Nat
  guards : List Bool
  stops : List Nat
  upstreamStops : Nat
  parentOut : List TEvt
deriving DecidableEq, Repr

/-- A fresh `flatMapCapped` subscription: no children yet. -/
def FMState.init : FMState := ⟨[], [], [], 0, []⟩

/-- What can happen to a `flatMapCapped` subscription: a parent value
ticks (spawning a child), a child's pipeline delivers a call to that
child's terminal handler, or the caller stops the parent subscription. -/
inductive FMAct where
  | parentTick
  | childDeliver (id : Nat) (o : Out)
  | parentStop

/-- Invoke the raw stored stop of child `id`: the underlying producer
stop runs unconditionally (no guard is in this path). -/
def bumpStop (stops : List Nat) (id : Nat) : List Nat :=
  stops.set id (stops.getD id 0 + 1)

/-- One step of a `flatMapCapped` subscription, as described above. -/
def fmStep (limit : Option Nat) (st : FMState) : FMAct → FMState
  | .parentTick =>
      let st1 := match limit with
        | some l =>
          if st.arr.length ≥ l then
            match st.arr with
            | old :: rest => { st with arr := rest, stops := bumpStop st.stops old }
            | [] => st
          else st
        | none => st
      { st1 with arr := st1.arr ++ [st1.stops.length],
                 guards := st1.guards ++ [true],
                 stops := st1.stops ++ [0] }
  | .childDeliver id o =>
      match o with
      | .next v =>
        if v = .sig then
          if st.guards.getD id false then
            { st with guards := st.guards.set id false,
                      stops := bumpStop st.stops id }
          else st
        else { st with parentOut := st.parentOut ++ [.onNext v] }
      | .err e => { st with parentOut := st.parentOut ++ [.onError e] }
  | .parentStop =>
      { st with stops := st.arr.foldl bumpStop st.stops,
                upstreamStops := st.upstreamStops + 1 }

/-- A `flatMapCapped` subscription run from fresh. -/
def fmRun (limit : Option Nat) (acts : List FMAct) : FMState :=
  acts.foldl (fmStep limit) .init

/-- C4 counterexample: one child is spawned and exhausts naturally (its
sentinel reaches its own terminal handler).  Its producer is stopped
once through its guard and the parent sees nothing — but the child is
NOT removed from `substreams`: parent teardown then invokes its raw
stored stop a second time, and under `flatMapLatest` the cap eviction on
the next parent value does the same. -/
theorem c4_flatmap_counterexample :
    (fmRun none [.parentTick, .childDeliver 0 (.next .sig)]).arr = [0] ∧
    (fmRun none [.parentTick, .childDeliver 0 (.next .sig)]).stops = [1] ∧
    (fmRun none [.parentTick, .childDeliver 0 (.next .sig)]).parentOut = [] ∧
    (fmRun none [.parentTick, .childDeliver 0 (.next .sig), .parentStop]).stops
      = [2] ∧
    (fmRun none [.parentTick, .childDeliver 0 (.next .sig), .parentStop]).stops
      ≠ [1] ∧
    (fmRun (some 1) [.parentTick, .childDeliver 0 (.next .sig), .parentTick]).stops
      = [2, 0] := by
  decide

/-- C4 amended: a child that emits some values and then exhausts
naturally forwards exactly those values (never the sentinel) to the
parent and does not terminate it; at that moment its own producer stop
has run exactly once, through the guard in its terminal handler.  The
child is however left in the `substreams` array, so a later parent
teardown invokes its raw stored stop a second time while also stopping
the parent's producer once. -/
theorem c4_flatmap_amended (ns : List Int) :
    (fmRun none (.parentTick ::
        (ns.map fun n => .childDeliver 0 (.next (.int n))) ++
        [.childDeliver 0 (.next .sig)]))
      = ⟨[0], [false], [1], 0, ns.map fun n => .onNext (.int n)⟩ ∧
    (fmRun none ((.parentTick ::
        (ns.map fun n => .childDeliver 0 (.next (.int n))) ++
        [.childDeliver 0 (.next .sig)]) ++ [.parentStop]))
      = ⟨[0], [false], [2], 1, ns.map fun n => .onNext (.int n)⟩ := by
  have hemit : ∀ (ms : List Int) (st : FMState),
      List.foldl (fmStep none) st (ms.map fun n => .childDeliver 0 (.next (.int n)))
        = { st with parentOut := st.parentOut ++ ms.map fun n => .onNext (.int n) } := by
    intro ms
    induction ms with
    | nil => intro st; simp
    | cons m ms ih =>
      intro st
      simp [fmStep, ih]
  have h1 : fmRun none (.parentTick ::
      (ns.map fun n => .childDeliver 0 (.next (.int n))) ++
      [.childDeliver 0 (.next .sig)])
      = ⟨[0], [false], [1], 0, ns.map fun n => .onNext (.int n)⟩ := by
    show List.foldl (fmStep none) FMState.init _ = _
    simp only [List.foldl_cons, List.foldl_append, hemit]
    rfl
  refine ⟨h1, ?_⟩
  show List.foldl (fmStep none) FMState.init _ = _
  rw [List.foldl_append]
  rw [show List.foldl (fmStep none) FMState.init (.parentTick ::
      (ns.map fun n => .childDeliver 0 (.next (.int n))) ++
      [.childDeliver 0 (.next .sig)]) = _ from h1]
  rfl

/-! ## Laziness of construction (C9)

A Stream Value is the pair of its subscriptor and its composed
scheduler.  Construction of every combinator builds a new
`eventstream(...)` pair without invoking any subscriptor:

* the linear five go through `transformScheduler` (lines 228–233),
  which passes `subscriptor` through untouched;
* `delay` builds `joinSubscriptors(constant(clearTimeout..),
  subscriptor)` (lines 71–77), and `flatMap`/`flatMapLatest` (both
  `flatMapCapped`) build `joinSubscriptors(constant(invokeEach
  substreams), subscriptor)` (lines 153–159) — `joinSubscriptors`
  (lines 271–281) only returns a function, and `constant(stopFn)` is a
  subscriptor that performs nothing and returns `stopFn`;
* `merge`/`combineLatest`/`sampledBy` go through
  `combineWithEventStream` (lines 244–268), which does run
  `other.decompose(getter)` at construction time (lines 203–205), but
  the getter only builds `eventstream(joinSubscriptors(subscriptor,
  otherSubscriptor), ...)`, invoking neither subscriptor;
* `takeUntil(other)` is `merge(other.map(constant(EXHAUST_SIGNAL)))`
  (lines 142–148), and the `map` leaves the other stream's subscriptor
  untouched.

We instrument producer starts as a log of producer identifiers: the
model threads the log through every construction step (mirroring that no
construction path invokes a subscriptor, the log can only pass through
unchanged), and `subscribe` (line 175) is the one place a subscriptor is
invoked — once, appending that subscriptor's starts. -/

/-- The subscriptor of a composed Stream Value, as the library builds
it: a base producer's subscriptor, the start-nothing subscriptor
`constant(stopFn)`, or `joinSubscriptors` of two. -/
inductive Subscr where
  | base (pid : Nat)
  | constStop
  | join (a b : Subscr)

/-- Invoking a subscriptor: a base subscriptor starts its producer,
`constant(stopFn)` starts nothing (it ignores the handler and returns
`stopFn`), and the joined subscriptor of `joinSubscriptors` (lines
271–281) invokes its two constituents in order.  The list records every
producer start performed, in order. -/
def Subscr.starts : Subscr → List Nat
  | .base pid => [pid]
  | .constStop => []
  | .join a b => a.starts ++ b.starts

/-- An arbitrary composition of Stream Values over base producers
(identified by number), covering the whole combinator algebra.  The
projection function of `flatMap`/`flatMapLatest` yields a stream per
incoming value; construction never calls it (children are subscribed
per parent tick, line 166), so it plays no role below. -/
inductive StreamExpr where
  | source (pid : Nat)
  | map (e : StreamExpr) (fn : JSFun)
  | filter (e : StreamExpr) (predicate : JSFun)
  | scan (e : StreamExpr) (seed : JSVal) (fn : JSFun2)
  | diff (e : StreamExpr) (seed : JSVal) (fn : JSFun2)
  | take (e : StreamExpr) (count : Int)
  | delay (e : StreamExpr) (timeout : Nat)
  | merge (e other : StreamExpr)
  | combineLatest (e other : StreamExpr) (combinator : JSFun2)
  | sampledBy (e other : StreamExpr)
  | takeUntil (e other : StreamExpr)
  | flatMap (e : StreamExpr) (fn : JSVal → StreamExpr)
  | flatMapLatest (e : StreamExpr) (fn : JSVal → StreamExpr)

/-- The base producers a composed Stream Value is built over, one
occurrence per use, in left-to-right composition order.  (A descriptor
used twice contributes twice: subscriptions are independent, there is no
multicast.) -/
def producersOf : StreamExpr → List Nat
  | .source pid => [pid]
  | .map e _ => producersOf e
  | .filter e _ => producersOf e
  | .scan e _ _ => producersOf e
  | .diff e _ _ => producersOf e
  | .take e _ => producersOf e
  | .delay e _ => producersOf e
  | .merge e o => producersOf e ++ producersOf o
  | .combineLatest e o _ => producersOf e ++ producersOf o
  | .sampledBy e o => producersOf e ++ producersOf o
  | .takeUntil e o => producersOf e ++ producersOf o
  | .flatMap e _ => producersOf e
  | .flatMapLatest e _ => producersOf e

/-- Constructing a composed Stream Value, with the global start log
threaded through every step: each case builds exactly the subscriptor
the corresponding method builds (see the section comment for the lines),
and since no construction path invokes a subscriptor, each case passes
the log through untouched.  Returns the built subscriptor and the log
after construction. -/
def buildTraced : StreamExpr → List Nat → Subscr × List Nat
  | .source pid, log => (.base pid, log)
  | .map e _, log => buildTraced e log
  | .filter e _, log => buildTraced e log
  | .scan e _ _, log => buildTraced e log
  | .diff e _ _, log => buildTraced e log
  | .take e _, log => buildTraced e log
  | .delay e _, log =>
      let p := buildTraced e log
      (.join .constStop p.1, p.2)
  | .merge e o, log =>
      let p := buildTraced e log
      let q := buildTraced o p.2
      (.join p.1 q.1, q.2)
  | .combineLatest e o _, log =>
      let p := buildTraced e log
      let q := buildTraced o p.2
      (.join p.1 q.1, q.2)
  | .sampledBy e o, log =>
      let p := buildTraced e log
      let q := buildTraced o p.2
      (.join p.1 q.1, q.2)
  | .takeUntil e o, log =>
      let p := buildTraced e log
      let q := buildTraced o p.2
      (.join p.1 q.1, q.2)
  | .flatMap e _, log =>
      let p := buildTraced e log
      (.join .constStop p.1, p.2)
  | .flatMapLatest e _, log =>
      let p := buildTraced e log
      (.join .constStop p.1, p.2)

/-- One `subscribe` call on a built Stream Value: line 175 invokes the
composed subscriptor exactly once, appending its producer starts to the
log. -/
def subscribeTraced (s : Subscr) (log : List Nat) : List Nat :=
  log ++ s.starts

theorem buildTraced_spec (e : StreamExpr) (log : List Nat) :
    (buildTraced e log).2 = log ∧ (buildTraced e log).1.starts = producersOf e := by
  induction e generalizing log with
  | source pid => exact ⟨rfl, rfl⟩
  | map e fn ih => exact ih log
  | filter e p ih => exact ih log
  | scan e seed fn ih => exact ih log
  | diff e seed fn ih => exact ih log
  | take e count ih => exact ih log
  | delay e timeout ih =>
      exact ⟨(ih log).1, by simp [buildTraced, Subscr.starts, producersOf, (ih log).2]⟩
  | merge e o ihe iho =>
      refine ⟨?_, ?_⟩ <;>
        simp [buildTraced, Subscr.starts, producersOf, (ihe log).1, (ihe log).2,
          (iho log).1, (iho log).2]
  | combineLatest e o combinator ihe iho =>
      refine ⟨?_, ?_⟩ <;>
        simp [buildTraced, Subscr.starts, producersOf, (ihe log).1, (ihe log).2,
          (iho log).1, (iho log).2]
  | sampledBy e o ihe iho =>
      refine ⟨?_, ?_⟩ <;>
        simp [buildTraced, Subscr.starts, producersOf, (ihe log).1, (ihe log).2,
          (iho log).1, (iho log).2]
  | takeUntil e o ihe iho =>
      refine ⟨?_, ?_⟩ <;>
        simp [buildTraced, Subscr.starts, producersOf, (ihe log).1, (ihe log).2,
          (iho log).1, (iho log).2]
  | flatMap e fn ih _ =>
      exact ⟨(ih log).1, by simp [buildTraced, Subscr.starts, producersOf, (ih log).2]⟩
  | flatMapLatest e fn ih _ =>
      exact ⟨(ih log).1, by simp [buildTraced, Subscr.starts, producersOf, (ih log).2]⟩

/-- C9: constructing or composing any chain of combinators — linear,
timed, joining or dynamic — passes the producer-start log through
untouched: construction never starts a producer.  Each `subscribe` call
then invokes the composed subscriptor once, starting exactly the base
producers the chain is composed over, one start per occurrence, in
order; and a second `subscribe` call independently performs exactly the
same starts again. -/
theorem c9_laziness (e : StreamExpr) (log log2 : List Nat) :
    (buildTraced e log).2 = log ∧
    subscribeTraced (buildTraced e log).1 log2 = log2 ++ producersOf e ∧
    subscribeTraced (buildTraced e log).1 (subscribeTraced (buildTraced e log).1 log2)
      = log2 ++ producersOf e ++ producersOf e := by
  obtain ⟨h1, h2⟩ := buildTraced_spec e log
  exact ⟨h1, by simp [subscribeTraced, h2], by simp [subscribeTraced, h2]⟩

end Eventstream
